import Mathlib

/-!
Verification development for the sentence-segmentation, stop-word and
word-vector material of this repository.

The functions `set_custom_boundaries`, `split_on_newlines`,
`cosine_similarity` and `computed_similarities1` are translated from the
notebook sources.  Operations that the notebooks only invoke through the
external library (the flag-walking `sentences`, the freeze rule on
boundary flags, vocabulary `get` and guarded `similarity`) are modelled
from the design spec; their doc comments say so explicitly.

Vector components are embedded as rationals; a cosine value
`dot/(‖x‖·‖y‖)` is held exactly as its numerator `d = dot x y` together
with the squared denominator `p = ‖x‖²·‖y‖²` (see `Score`), and ranking
uses the order-faithful surrogate `Score.key` (see `score_key_le_iff`).
-/

/-- Token of a document: its text and the sentence-start flag
(spaCy's `token.is_sent_start` used throughout the segmentation
notebook). -/
structure Token where
  text : String
  is_sent_start : Bool
deriving DecidableEq

/-- Default token used by out-of-range `getD` reads. -/
def blank_token : Token := ⟨"", false⟩

/-- Predicate picking the indices at which a new sentence span begins:
index 0 always does, any other index does when its token is flagged. -/
def sentence_start_pred (tokens : List Token) (i : Nat) : Bool :=
  i == 0 || (tokens.getD i blank_token).is_sent_start

/-- Modelled from the spec: `sentences()` walks the sentence-start
flags; a new span begins at index 0 and at every non-zero flagged index,
and each span ends where the next begins (or at the end of the
document).  The flag-walking segmenter itself is not implemented in the
repository — the notebooks call the library's `doc.sents` — so this
definition follows the spec's walking rule. -/
def sentences (tokens : List Token) : List (Nat × Nat) :=
  let starts := (List.range tokens.length).filter (sentence_start_pred tokens)
  starts.zip (starts.tail ++ [tokens.length])

/-- Decides that a span list is a contiguous, non-overlapping cover of
the half-open range from `a` to `n` by non-empty half-open spans. -/
def coversFrom : Nat → Nat → List (Nat × Nat) → Bool
  | a, n, [] => a == n
  | a, n, (s, e) :: rest => s == a && decide (a < e) && coversFrom e n rest

/-- Texts of the tokens inside one half-open span. -/
def span_texts (doc : List Token) (sp : Nat × Nat) : List String :=
  ((doc.map Token.text).drop sp.1).take (sp.2 - sp.1)

/-- Writes the sentence-start flag of the token at one index; indices
past the end of the list are left unchanged (no token to write). -/
def set_flag (b : Bool) : List Token → Nat → List Token
  | [], _ => []
  | t :: ts, 0 => ⟨t.text, b⟩ :: ts
  | t :: ts, j + 1 => t :: set_flag b ts j

/-- Translated from the segmentation notebook's custom component: the
loop `for token in doc[:-1]: if token.text == ';':
doc[token.i+1].is_sent_start = True`.  The pass never writes token
texts, so reading each text from the input sequence coincides with
reading it from the live document. -/
def set_custom_boundaries (doc : List Token) : List Token :=
  (List.range (doc.length - 1)).foldl
    (fun d i => if (doc.getD i blank_token).text = ";" then set_flag true d (i + 1) else d)
    doc

/-- Test used by the notebook's newline strategy,
`word.text.startswith('\n')`: for the one-character pattern this is
exactly "the first character is a newline", which is how we state it
(`String.startsWith` itself does not reduce in the kernel). -/
def starts_with_newline (s : String) : Bool :=
  match s.data with
  | [] => false
  | c :: _ => c == '\n'

/-- Loop of the notebook generator `split_on_newlines`, carrying the
current token index, the start of the pending span and the
`seen_newline` flag.  When the flag is set, the span up to (excluding)
the current token is yielded and the current token is not itself tested
for a newline — exactly the `if`/`elif` of the source. -/
def split_on_newlines_from : List Token → Nat → Nat → Bool → List (Nat × Nat)
  | [], i, start, _ => [(start, i)]
  | w :: ws, i, start, seen =>
    if seen then
      (start, i) :: split_on_newlines_from ws (i + 1) i false
    else if starts_with_newline w.text then
      split_on_newlines_from ws (i + 1) start true
    else
      split_on_newlines_from ws (i + 1) start false

/-- Translated from the notebook's replacement segmentation strategy:
yields a span before each token that follows a newline-starting token,
and finally yields `doc[start:]` for the last group of tokens. -/
def split_on_newlines (doc : List Token) : List (Nat × Nat) :=
  split_on_newlines_from doc 0 0 false

/-- Error for writes to sentence-boundary flags after the parse pass
(the notebook shows the library refusing such writes with
`ValueError: [E043] Refusing to write to token.sent_start if its
document is parsed`). -/
inductive FrozenStateError
  | mk
deriving DecidableEq

/-- Modelled from the spec: a boundary rule is data — a predicate on the
inspected token plus a neighbor offset at which the flag is set. -/
structure BoundaryRule where
  pred : Token → Bool
  offset : Nat

/-- Modelled from the spec: applying one rule scans the whole token
sequence and flags token `i + offset` for every index `i` whose token
satisfies the predicate; an out-of-range neighbor reference no-ops. -/
def apply_rule (r : BoundaryRule) (toks : List Token) : List Token :=
  (List.range toks.length).foldl
    (fun d i => if r.pred (toks.getD i blank_token) then set_flag true d (i + r.offset) else d)
    toks

/-- Document state of the segmenter: its tokens plus whether the
boundary-marking / parse pass has already executed (locking it). -/
structure SegDoc where
  tokens : List Token
  frozen : Bool
deriving DecidableEq

/-- Modelled from the spec: `mark_boundaries` runs on a fresh (raw)
token sequence, applies the rules in registration order, and locks the
resulting document. -/
def mark_boundaries (rules : List BoundaryRule) (toks : List Token) : SegDoc :=
  ⟨rules.foldl (fun ts r => apply_rule r ts) toks, true⟩

/-- Modelled from the spec: a direct write to a token's sentence-start
flag fails with `FrozenStateError` once the document is locked; the
failure is an error value returned to the caller, the operation itself
always terminates. -/
def set_is_sent_start (d : SegDoc) (i : Nat) (b : Bool) :
    Except FrozenStateError SegDoc :=
  if d.frozen then .error .mk
  else .ok ⟨set_flag b d.tokens i, d.frozen⟩

/-- Dot product of two embedded vectors (componentwise product, then
sum; extra components of the longer vector are ignored, as both inputs
always share the model's dimensionality). -/
def dot (x y : List ℚ) : ℚ := (List.zipWith (· * ·) x y).sum

/-- Squared Euclidean norm of a vector; the `vector_norm` shown by the
notebook is its square root, and the two vanish together. -/
def vector_norm_sq (v : List ℚ) : ℚ := dot v v

/-- Error kinds of the vector-space component, from the spec. -/
inductive VSError
  | OutOfVocabulary
  | DegenerateVectorError
deriving DecidableEq

/-- Modelled from the spec: a vocabulary is a word-to-vector mapping;
we embed it as an association list with case-sensitive string keys. -/
abbrev Vocab : Type := List (String × List ℚ)

/-- Modelled from the spec: case-sensitive lookup that fails with
`OutOfVocabulary` (not a crash) on an unseen word. -/
def Vocab.get (voc : Vocab) (w : String) : Except VSError (List ℚ) :=
  match List.lookup w voc with
  | some v => .ok v
  | none => .error .OutOfVocabulary

/-- Lexeme view of a word as printed by the notebook
(`token.has_vector`, `token.vector_norm`): a seen word carries its
vector, an unseen word reports `has_vector = false` and carries no
vector components at all. -/
structure VocabLex where
  has_vector : Bool
  vector : List ℚ
deriving DecidableEq

/-- Modelled from the spec/notebook: the lexeme a vocabulary associates
to a word. -/
def Vocab.lex (voc : Vocab) (w : String) : VocabLex :=
  match List.lookup w voc with
  | some v => ⟨true, v⟩
  | none => ⟨false, []⟩

/-- Exact representation of a cosine-similarity value: the real value is
`d / √p`, with `d` the dot product and `p` the product of the two
squared norms.  (The cosine itself is irrational in general, so the
embedding keeps the pair and compares through `Score.key`.) -/
structure Score where
  d : ℚ
  p : ℚ
deriving DecidableEq

/-- Order-faithful rational surrogate for the cosine value `d / √p`:
the map `x ↦ x·|x|` is strictly monotone, and `key = (d/√p)·|d/√p|`
whenever `p > 0` — see `score_key_le_iff`.  Comparing keys therefore
compares cosines. -/
def Score.key (s : Score) : ℚ :=
  if s.d < 0 then -(s.d ^ 2 / s.p) else s.d ^ 2 / s.p

/-- Translated from the notebook's
`cosine_similarity = lambda x, y: 1 - spatial.distance.cosine(x, y)`,
i.e. `dot(x,y)/(‖x‖·‖y‖)`, held exactly as numerator and squared
denominator. -/
def cosine_similarity (x y : List ℚ) : Score :=
  ⟨dot x y, vector_norm_sq x * vector_norm_sq y⟩

/-- Modelled from the spec: `similarity` must fail with
`DegenerateVectorError` when either norm is zero (a norm vanishes
exactly when its square does) rather than divide by zero. -/
def similarity (a b : List ℚ) : Except VSError Score :=
  if vector_norm_sq a = 0 ∨ vector_norm_sq b = 0 then .error .DegenerateVectorError
  else .ok (cosine_similarity a b)

/-- Vocabulary entry as scanned by the analogy cell: word text, vector
and the three lexeme flags the loop filters on. -/
structure Lexeme where
  text : String
  vector : List ℚ
  has_vector : Bool
  is_lower : Bool
  is_alpha : Bool
deriving DecidableEq

/-- Componentwise difference of vectors. -/
def vec_sub (x y : List ℚ) : List ℚ := List.zipWith (· - ·) x y

/-- Componentwise sum of vectors. -/
def vec_add (x y : List ℚ) : List ℚ := List.zipWith (· + ·) x y

/-- Translated from the notebook: `new_vector = king - man + woman`. -/
def new_vector (king man woman : List ℚ) : List ℚ :=
  vec_add (vec_sub king man) woman

/-- Translated from the notebook's scan over `nlp.vocab`: keep the
entries with a vector that are lowercase-only and alphabetic-only, and
pair each with its cosine similarity to the target vector. -/
def computed_similarities (vocab : List Lexeme) (nv : List ℚ) :
    List (Lexeme × Score) :=
  vocab.filterMap (fun word =>
    if word.has_vector && word.is_lower && word.is_alpha then
      some (word, cosine_similarity nv word.vector)
    else none)

/-- Descending-similarity order on scored entries, the order of
`sorted(..., key=lambda item: -item[1])`. -/
def sim_desc (a b : Lexeme × Score) : Prop :=
  Score.key b.2 ≤ Score.key a.2

instance : DecidableRel sim_desc :=
  fun a b => inferInstanceAs (Decidable (Score.key b.2 ≤ Score.key a.2))

instance : IsTotal (Lexeme × Score) sim_desc :=
  ⟨fun a b => le_total (Score.key b.2) (Score.key a.2)⟩

instance : IsTrans (Lexeme × Score) sim_desc :=
  ⟨fun _ _ _ hab hbc => le_trans hbc hab⟩

/-- Translated from the notebook's
`computed_similarities1 = sorted(computed_similarities, key=lambda item:
-item[1])`.  Python's sort is stable and ascending in `-similarity`,
i.e. the stable descending sort by similarity; a stable sort by a total
preorder is extensionally unique, so the stable `insertionSort` with the
non-strict descending order produces the same list. -/
def computed_similarities1 (vocab : List Lexeme) (nv : List ℚ) :
    List (Lexeme × Score) :=
  List.insertionSort sim_desc (computed_similarities vocab nv)

/-- Error raised by Python's `set.remove` on a missing element. -/
inductive KeyErr
  | mk
deriving DecidableEq

/-- State mutated by the stop-words notebook: the default stop-word set
plus the per-lexeme `is_stop` flags. -/
structure StopWordsState where
  stop_words : Finset String
  is_stop : String → Bool

/-- Translated from the notebook's add cell:
`nlp.Defaults.stop_words.add(w)` followed by
`nlp.vocab[w].is_stop = True`. -/
def add_stop_word (s : StopWordsState) (w : String) : StopWordsState :=
  ⟨insert w s.stop_words, fun x => if x = w then true else s.is_stop x⟩

/-- Translated from the notebook's remove cell:
`nlp.Defaults.stop_words.remove(w)` (a `KeyError` when the word is
absent, as for Python's `set.remove`) followed by
`nlp.vocab[w].is_stop = False`. -/
def remove_stop_word (s : StopWordsState) (w : String) :
    Except KeyErr StopWordsState :=
  if w ∈ s.stop_words then
    .ok ⟨s.stop_words.erase w, fun x => if x = w then false else s.is_stop x⟩
  else .error .mk

/-- Four-token document of the semicolon example `"A; B."`. -/
def semicolon_example_doc : List Token :=
  [⟨"A", false⟩, ⟨";", false⟩, ⟨"B", false⟩, ⟨".", false⟩]

/-- Two-token document whose only semicolon is the last token. -/
def trailing_semicolon_doc : List Token := [⟨"A", false⟩, ⟨";", false⟩]

/-- Three-token document used as a concrete segmentation witness. -/
def c1_example_doc : List Token :=
  [⟨"This", false⟩, ⟨".", false⟩, ⟨"That", true⟩]

/-- Vocabulary entry "a" with the same vector as "b". -/
def lexA : Lexeme := ⟨"a", [1], true, true, true⟩

/-- Vocabulary entry "b" with the same vector as "a". -/
def lexB : Lexeme := ⟨"b", [1], true, true, true⟩

/-- Two-entry vocabulary listing "b" before "a". -/
def tie_vocab : List Lexeme := [lexB, lexA]

/-- Analogy target for the tie example; evaluates to the vector [1]. -/
def tie_target : List ℚ := new_vector [1] [1] [1]

theorem set_flag_length (b : Bool) :
    ∀ (d : List Token) (j : Nat), (set_flag b d j).length = d.length
  | [], _ => rfl
  | _ :: _, 0 => rfl
  | _ :: ts, j + 1 => congrArg Nat.succ (set_flag_length b ts j)

theorem set_flag_text (b : Bool) :
    ∀ (d : List Token) (j k : Nat),
      ((set_flag b d j).getD k blank_token).text = (d.getD k blank_token).text := by
  intro d
  induction d with
  | nil => intro j k; cases j <;> rfl
  | cons t ts ih =>
    intro j k
    cases j with
    | zero => cases k <;> rfl
    | succ j =>
      cases k with
      | zero => rfl
      | succ k =>
        simpa [set_flag, List.getD_cons_succ] using ih j k

theorem set_flag_true_flag :
    ∀ (d : List Token) (j k : Nat),
      (((set_flag true d j).getD k blank_token).is_sent_start = true) ↔
        ((d.getD k blank_token).is_sent_start = true ∨ (k = j ∧ j < d.length)) := by
  intro d
  induction d with
  | nil =>
    intro j k
    cases j <;> simp [set_flag, blank_token]
  | cons t ts ih =>
    intro j k
    cases j with
    | zero =>
      cases k with
      | zero => simp [set_flag]
      | succ k => simp [set_flag, List.getD_cons_succ]
    | succ j =>
      cases k with
      | zero => simp [set_flag, Nat.succ_lt_succ_iff]
      | succ k =>
        simpa [set_flag, List.getD_cons_succ, Nat.succ_lt_succ_iff] using ih j k

theorem scb_fold_length (doc : List Token) :
    ∀ (L : List Nat) (d : List Token),
      (L.foldl (fun d i =>
          if (doc.getD i blank_token).text = ";" then set_flag true d (i + 1) else d)
        d).length = d.length := by
  intro L
  induction L with
  | nil => intro d; rfl
  | cons i L ih =>
    intro d
    simp only [List.foldl_cons]
    rw [ih]
    by_cases h : (doc.getD i blank_token).text = ";"
    · rw [if_pos h, set_flag_length]
    · rw [if_neg h]

theorem scb_fold_text (doc : List Token) :
    ∀ (L : List Nat) (d : List Token) (k : Nat),
      (((L.foldl (fun d i =>
          if (doc.getD i blank_token).text = ";" then set_flag true d (i + 1) else d)
        d).getD k blank_token).text) = (d.getD k blank_token).text := by
  intro L
  induction L with
  | nil => intro d k; rfl
  | cons i L ih =>
    intro d k
    simp only [List.foldl_cons]
    rw [ih]
    by_cases h : (doc.getD i blank_token).text = ";"
    · rw [if_pos h, set_flag_text]
    · rw [if_neg h]

theorem scb_fold_flag (doc : List Token) :
    ∀ (L : List Nat) (d : List Token) (j : Nat),
      ((((L.foldl (fun d i =>
          if (doc.getD i blank_token).text = ";" then set_flag true d (i + 1) else d)
        d).getD j blank_token).is_sent_start = true) ↔
        (((d.getD j blank_token).is_sent_start = true) ∨
          ∃ i ∈ L, (doc.getD i blank_token).text = ";" ∧ j = i + 1 ∧ j < d.length)) := by
  intro L
  induction L with
  | nil => intro d j; simp
  | cons i L ih =>
    intro d j
    simp only [List.foldl_cons]
    rw [ih]
    by_cases h : (doc.getD i blank_token).text = ";"
    · rw [if_pos h, set_flag_true_flag, set_flag_length]
      constructor
      · rintro ((hold | ⟨hj, hlt⟩) | ⟨i2, hi2, hc, hj, hlt⟩)
        · exact Or.inl hold
        · exact Or.inr ⟨i, List.mem_cons_self i L, h, hj, by omega⟩
        · exact Or.inr ⟨i2, List.mem_cons_of_mem i hi2, hc, hj, hlt⟩
      · rintro (hold | ⟨i2, hi2, hc, hj, hlt⟩)
        · exact Or.inl (Or.inl hold)
        · rcases List.mem_cons.mp hi2 with rfl | hi2
          · exact Or.inl (Or.inr ⟨hj, by omega⟩)
          · exact Or.inr ⟨i2, hi2, hc, hj, hlt⟩
    · rw [if_neg h]
      constructor
      · rintro (hold | ⟨i2, hi2, hc, hj, hlt⟩)
        · exact Or.inl hold
        · exact Or.inr ⟨i2, List.mem_cons_of_mem i hi2, hc, hj, hlt⟩
      · rintro (hold | ⟨i2, hi2, hc, hj, hlt⟩)
        · exact Or.inl hold
        · rcases List.mem_cons.mp hi2 with rfl | hi2
          · exact absurd hc h
          · exact Or.inr ⟨i2, hi2, hc, hj, hlt⟩

theorem scb_length (doc : List Token) :
    (set_custom_boundaries doc).length = doc.length :=
  scb_fold_length doc _ doc

theorem scb_text (doc : List Token) (k : Nat) :
    ((set_custom_boundaries doc).getD k blank_token).text = (doc.getD k blank_token).text :=
  scb_fold_text doc _ doc k

theorem scb_flag (doc : List Token) (j : Nat) :
    (((set_custom_boundaries doc).getD j blank_token).is_sent_start = true) ↔
      (((doc.getD j blank_token).is_sent_start = true) ∨
        (1 ≤ j ∧ j < doc.length ∧ (doc.getD (j - 1) blank_token).text = ";")) := by
  rw [set_custom_boundaries, scb_fold_flag doc]
  constructor
  · rintro (hold | ⟨i, hi, hc, rfl, hlt⟩)
    · exact Or.inl hold
    · exact Or.inr ⟨Nat.succ_le_succ (Nat.zero_le i), hlt, by simpa using hc⟩
  · rintro (hold | ⟨h1, hlt, hc⟩)
    · exact Or.inl hold
    · refine Or.inr ⟨j - 1, List.mem_range.mpr (by omega), hc, by omega, hlt⟩

theorem starts_head (tokens : List Token) (hne : tokens ≠ []) :
    ((List.range tokens.length).filter (sentence_start_pred tokens)).head? = some 0 := by
  rcases hn : tokens.length with _ | m
  · exact absurd (List.length_eq_zero.mp hn) hne
  · rw [List.range_succ_eq_map, List.filter_cons]
    have h0 : sentence_start_pred tokens 0 = true := by
      simp [sentence_start_pred]
    rw [if_pos h0]
    rfl

theorem coversFrom_zip (n : Nat) :
    ∀ (B : List Nat) (a : Nat), List.Chain' (· < ·) B → (∀ b ∈ B, b < n) →
      B.head? = some a → coversFrom a n (B.zip (B.tail ++ [n])) = true := by
  intro B
  induction B with
  | nil => intro a _ _ hh; exact absurd hh (by simp)
  | cons b B ih =>
    intro a hchain hlt hh
    have hb : b = a := by simpa using hh
    subst hb
    cases B with
    | nil =>
      have hbn : b < n := hlt b (List.mem_cons_self b [])
      simp [coversFrom, hbn]
    | cons c B2 =>
      have hbc : b < c := (List.chain'_cons.mp hchain).1
      have hrest := ih c (List.chain'_cons.mp hchain).2
        (fun x hx => hlt x (List.mem_cons_of_mem b hx)) rfl
      simp only [List.zip, List.tail_cons] at hrest
      simp only [List.tail_cons, List.cons_append, List.zip_cons_cons, coversFrom]
      simp [hbc, hrest]

theorem sentences_starts_eq (tokens : List Token) :
    (sentences tokens).map Prod.fst =
      (List.range tokens.length).filter (sentence_start_pred tokens) := by
  apply List.map_fst_zip
  rcases hB : (List.range tokens.length).filter (sentence_start_pred tokens) with _ | ⟨b, B⟩
  · simp
  · simp

/-- C1: for every non-empty token sequence, `sentences` returns at least
one span; the spans are contiguous, non-overlapping half-open ranges
covering the whole sequence exactly once (`coversFrom 0 length`); the
first span begins at index 0; and a span begins exactly at index 0 and
at every non-zero in-range index whose token is flagged as a sentence
start. -/
theorem sentences_cover_spans (tokens : List Token) (i : Nat) (hne : tokens ≠ []) :
    sentences tokens ≠ [] ∧
    coversFrom 0 tokens.length (sentences tokens) = true ∧
    ((sentences tokens).map Prod.fst).head? = some 0 ∧
    (i ∈ (sentences tokens).map Prod.fst ↔
      (i < tokens.length ∧
        (i = 0 ∨ (tokens.getD i blank_token).is_sent_start = true))) := by
  have hchain : List.Chain' (· < ·)
      ((List.range tokens.length).filter (sentence_start_pred tokens)) :=
    ((List.pairwise_lt_range tokens.length).filter _).chain'
  have hlt : ∀ b ∈ (List.range tokens.length).filter (sentence_start_pred tokens),
      b < tokens.length := fun b hb => List.mem_range.mp (List.mem_filter.mp hb).1
  have hh := starts_head tokens hne
  have hcov := coversFrom_zip tokens.length _ 0 hchain hlt hh
  have h3 : ((sentences tokens).map Prod.fst).head? = some 0 := by
    rw [sentences_starts_eq]; exact hh
  have h1 : sentences tokens ≠ [] := by
    intro hcontra
    rw [hcontra] at h3
    simp at h3
  refine ⟨h1, by simpa [sentences] using hcov, h3, ?_⟩
  rw [sentences_starts_eq]
  simp [List.mem_filter, List.mem_range, sentence_start_pred]

/-- Witness for `sentences_cover_spans` at a concrete three-token
document whose third token is flagged. -/
theorem sentences_cover_spans_witness :
    c1_example_doc ≠ [] ∧
      (sentences c1_example_doc ≠ [] ∧
        coversFrom 0 c1_example_doc.length (sentences c1_example_doc) = true ∧
        ((sentences c1_example_doc).map Prod.fst).head? = some 0 ∧
        (2 ∈ (sentences c1_example_doc).map Prod.fst ↔
          (2 < c1_example_doc.length ∧
            (2 = 0 ∨ (c1_example_doc.getD 2 blank_token).is_sent_start = true)))) :=
  ⟨by decide, sentences_cover_spans c1_example_doc 2 (by decide)⟩

/-- C2: once `mark_boundaries` (the parse pass) has run, any direct
write to a token's sentence-start flag fails with `FrozenStateError`;
the failure is a returned error value, not a crash, and a write to a
fresh, unlocked document still succeeds. -/
theorem frozen_flag_write_fails (rules : List BoundaryRule) (toks : List Token)
    (i : Nat) (b : Bool) :
    set_is_sent_start (mark_boundaries rules toks) i b = .error .mk ∧
    (mark_boundaries rules toks).frozen = true ∧
    set_is_sent_start ⟨toks, false⟩ i b = .ok ⟨set_flag b toks i, false⟩ :=
  ⟨rfl, rfl, rfl⟩

theorem vector_norm_sq_nonneg (v : List ℚ) : 0 ≤ vector_norm_sq v := by
  induction v with
  | nil => simp [vector_norm_sq, dot]
  | cons x xs ih =>
    have hx : 0 ≤ x * x := mul_self_nonneg x
    have : vector_norm_sq (x :: xs) = x * x + vector_norm_sq xs := by
      simp [vector_norm_sq, dot]
    rw [this]
    exact add_nonneg hx ih

theorem sqrt_norm_eq_zero_iff (v : List ℚ) :
    Real.sqrt ((vector_norm_sq v : ℚ) : ℝ) = 0 ↔ vector_norm_sq v = 0 := by
  constructor
  · intro h
    have hnn : (0 : ℝ) ≤ ((vector_norm_sq v : ℚ) : ℝ) := by
      exact_mod_cast vector_norm_sq_nonneg v
    have := (Real.sqrt_eq_zero hnn).mp h
    exact_mod_cast this
  · intro h
    rw [h]
    simp [Real.sqrt_zero]

/-- C3: looking up a word absent from the vocabulary fails with
`OutOfVocabulary` rather than returning a vector, and the corresponding
lexeme reports `has_vector = false` with a vector norm of exactly 0. -/
theorem oov_get_fails_zero_norm (voc : Vocab) (w : String)
    (h : List.lookup w voc = none) :
    Vocab.get voc w = .error .OutOfVocabulary ∧
    (Vocab.lex voc w).has_vector = false ∧
    vector_norm_sq (Vocab.lex voc w).vector = 0 ∧
    Real.sqrt ((vector_norm_sq (Vocab.lex voc w).vector : ℚ) : ℝ) = 0 := by
  refine ⟨?_, ?_, ?_, ?_⟩
  · rw [Vocab.get, h]
  · rw [Vocab.lex, h]
  · rw [Vocab.lex, h]
    simp [vector_norm_sq, dot]
  · rw [Vocab.lex, h]
    simp [vector_norm_sq, dot]

/-- Witness for `oov_get_fails_zero_norm`: the word "nargle" against a
one-entry vocabulary. -/
theorem oov_get_fails_zero_norm_witness :
    List.lookup "nargle" ([("dog", [(1 : ℚ), 2])] : Vocab) = none ∧
      (Vocab.get [("dog", [(1 : ℚ), 2])] "nargle" = .error .OutOfVocabulary ∧
        (Vocab.lex [("dog", [(1 : ℚ), 2])] "nargle").has_vector = false ∧
        vector_norm_sq (Vocab.lex [("dog", [(1 : ℚ), 2])] "nargle").vector = 0 ∧
        Real.sqrt ((vector_norm_sq (Vocab.lex [("dog", [(1 : ℚ), 2])] "nargle").vector : ℚ) : ℝ) = 0) :=
  ⟨rfl, oov_get_fails_zero_norm [("dog", [(1 : ℚ), 2])] "nargle" rfl⟩

/-- C4: similarity of two vectors fails with `DegenerateVectorError`
whenever either Euclidean norm is zero, instead of dividing by zero. -/
theorem zero_norm_similarity_degenerate (a b : List ℚ)
    (h : Real.sqrt ((vector_norm_sq a : ℚ) : ℝ) = 0 ∨
      Real.sqrt ((vector_norm_sq b : ℚ) : ℝ) = 0) :
    similarity a b = .error .DegenerateVectorError := by
  have h2 : vector_norm_sq a = 0 ∨ vector_norm_sq b = 0 := by
    rcases h with h | h
    · exact Or.inl ((sqrt_norm_eq_zero_iff a).mp h)
    · exact Or.inr ((sqrt_norm_eq_zero_iff b).mp h)
  rw [similarity, if_pos h2]

/-- Witness for `zero_norm_similarity_degenerate` at the zero vector
`[0]` against `[1]`. -/
theorem zero_norm_similarity_degenerate_witness :
    (Real.sqrt ((vector_norm_sq [(0 : ℚ)] : ℚ) : ℝ) = 0 ∨
        Real.sqrt ((vector_norm_sq [(1 : ℚ)] : ℚ) : ℝ) = 0) ∧
      similarity [(0 : ℚ)] [(1 : ℚ)] = .error .DegenerateVectorError :=
  ⟨Or.inl (by simp [vector_norm_sq, dot]),
    zero_norm_similarity_degenerate [(0 : ℚ)] [(1 : ℚ)]
      (Or.inl (by simp [vector_norm_sq, dot]))⟩

/-- C6: under the semicolon custom rule, the token immediately following
a ";" is flagged as a sentence start; on the tokens of `"A; B."` the
segmenter yields exactly the spans `["A", ";"]` and `["B", "."]`. -/
theorem semicolon_rule_flags_next_token (doc : List Token) (i : Nat)
    (hi : i + 1 < doc.length) (hc : (doc.getD i blank_token).text = ";") :
    ((set_custom_boundaries doc).getD (i + 1) blank_token).is_sent_start = true ∧
    sentences (set_custom_boundaries semicolon_example_doc) = [(0, 2), (2, 4)] ∧
    (sentences (set_custom_boundaries semicolon_example_doc)).map
      (span_texts (set_custom_boundaries semicolon_example_doc)) =
        [["A", ";"], ["B", "."]] := by
  refine ⟨?_, rfl, rfl⟩
  rw [scb_flag]
  exact Or.inr ⟨Nat.succ_le_succ (Nat.zero_le i), hi, by simpa using hc⟩

/-- Witness for `semicolon_rule_flags_next_token` at the `"A; B."`
document with the semicolon at index 1. -/
theorem semicolon_rule_flags_next_token_witness :
    (1 + 1 < semicolon_example_doc.length ∧
        (semicolon_example_doc.getD 1 blank_token).text = ";") ∧
      (((set_custom_boundaries semicolon_example_doc).getD (1 + 1)
            blank_token).is_sent_start = true ∧
        sentences (set_custom_boundaries semicolon_example_doc) = [(0, 2), (2, 4)] ∧
        (sentences (set_custom_boundaries semicolon_example_doc)).map
          (span_texts (set_custom_boundaries semicolon_example_doc)) =
            [["A", ";"], ["B", "."]]) :=
  ⟨⟨by decide, by decide⟩,
    semicolon_rule_flags_next_token semicolon_example_doc 1 (by decide) (by decide)⟩

/-- C9: the semicolon rule iterates only over `doc[:-1]`, so a rule
match whose neighbor offset would fall outside the sequence performs no
flag update and never fails: the pass is total, preserves length and
texts, sets a flag at `j` exactly when `1 ≤ j < length` and the
preceding token is ";" (so a trailing ";" contributes nothing), and in
particular leaves a document whose only ";" is the last token fully
unchanged. -/
theorem custom_rule_out_of_range_noop (doc : List Token) (j : Nat) :
    (set_custom_boundaries doc).length = doc.length ∧
    ((set_custom_boundaries doc).getD j blank_token).text =
      (doc.getD j blank_token).text ∧
    (((set_custom_boundaries doc).getD j blank_token).is_sent_start = true ↔
      ((doc.getD j blank_token).is_sent_start = true ∨
        (1 ≤ j ∧ j < doc.length ∧ (doc.getD (j - 1) blank_token).text = ";"))) ∧
    set_custom_boundaries trailing_semicolon_doc = trailing_semicolon_doc :=
  ⟨scb_length doc, scb_text doc j, scb_flag doc j, rfl⟩

theorem split_from_spans_nonempty :
    ∀ (ws : List Token) (i start : Nat) (seen : Bool),
      (start < i ∨ (start ≤ i ∧ seen = false ∧ ws ≠ [])) →
      ∀ sp ∈ split_on_newlines_from ws i start seen, sp.1 < sp.2 := by
  intro ws
  induction ws with
  | nil =>
    intro i start seen hinv sp hsp
    have hlt : start < i := by
      rcases hinv with h | ⟨_, _, habs⟩
      · exact h
      · exact absurd rfl habs
    simp only [split_on_newlines_from, List.mem_singleton] at hsp
    subst hsp
    exact hlt
  | cons w ws ih =>
    intro i start seen hinv sp hsp
    cases seen with
    | true =>
      have hlt : start < i := by
        rcases hinv with h | ⟨_, habs, _⟩
        · exact h
        · exact absurd habs (by simp)
      simp only [split_on_newlines_from, if_pos, List.mem_cons] at hsp
      rcases hsp with rfl | hsp
      · exact hlt
      · exact ih (i + 1) i false (Or.inl (Nat.lt_succ_self i)) sp hsp
    | false =>
      have hle : start ≤ i := by
        rcases hinv with h | ⟨h, _, _⟩
        · exact Nat.le_of_lt h
        · exact h
      simp only [split_on_newlines_from, if_neg] at hsp
      by_cases hw : starts_with_newline w.text
      · rw [if_pos hw] at hsp
        exact ih (i + 1) start true (Or.inl (Nat.lt_succ_of_le hle)) sp hsp
      · rw [if_neg hw] at hsp
        exact ih (i + 1) start false (Or.inl (Nat.lt_succ_of_le hle)) sp hsp

/-- C7: in the newline-based segmentation mode, spans yielded on a
non-empty token sequence are all non-empty; in particular consecutive
leading newline tokens collapse rather than producing an empty
sentence, as on the tokens `["\n", "\n", "x"]`. -/
theorem newline_mode_spans_nonempty (doc : List Token) (sp : Nat × Nat)
    (hne : doc ≠ []) (hsp : sp ∈ split_on_newlines doc) :
    sp.1 < sp.2 ∧
      split_on_newlines [⟨"\n", false⟩, ⟨"\n", false⟩, ⟨"x", false⟩] =
        [(0, 1), (1, 3)] :=
  ⟨split_from_spans_nonempty doc 0 0 false
      (Or.inr ⟨Nat.le_refl 0, rfl, hne⟩) sp hsp, rfl⟩

/-- Witness for `newline_mode_spans_nonempty` at the one-token document
`["x"]`, whose single span is `(0, 1)`. -/
theorem newline_mode_spans_nonempty_witness :
    (([⟨"x", false⟩] : List Token) ≠ [] ∧
        ((0, 1) : Nat × Nat) ∈ split_on_newlines [⟨"x", false⟩]) ∧
      (((0, 1) : Nat × Nat).1 < ((0, 1) : Nat × Nat).2 ∧
        split_on_newlines [⟨"\n", false⟩, ⟨"\n", false⟩, ⟨"x", false⟩] =
          [(0, 1), (1, 3)]) :=
  ⟨⟨by decide, by decide⟩,
    newline_mode_spans_nonempty [⟨"x", false⟩] (0, 1) (by decide) (by decide)⟩

/-- C8 counterexample: on the empty token sequence the notebook's
newline-mode strategy does not return an empty sequence of spans — its
trailing `yield doc[start:]` emits exactly one empty span. -/
theorem empty_doc_newline_counterexample :
    split_on_newlines ([] : List Token) = [(0, 0)] ∧
      split_on_newlines ([] : List Token) ≠ [] :=
  ⟨rfl, by decide⟩

/-- C8 (amended): on the empty token sequence the flag-walking
`sentences` returns the empty sequence of spans, while the newline-mode
strategy yields exactly one empty span `(0, 0)`; both are total, raising
no error. -/
theorem empty_doc_segmentation :
    sentences ([] : List Token) = [] ∧
      split_on_newlines ([] : List Token) = [(0, 0)] :=
  ⟨rfl, rfl⟩

/-- C10: for a word `w` absent from the stop-word set (and, as the
notebook's state maintains, not flagged), adding `w` makes `is_stop w`
report true and grows the set by exactly one; the subsequent remove
succeeds, restores the original set and its size, makes `is_stop w`
report false, and leaves every flag as it originally was — add followed
by remove is an identity on the stop-word state. -/
theorem stop_word_add_remove_roundtrip (s : StopWordsState) (w x : String)
    (h1 : w ∉ s.stop_words) (h2 : s.is_stop w = false) :
    (add_stop_word s w).is_stop w = true ∧
    (add_stop_word s w).stop_words.card = s.stop_words.card + 1 ∧
    (remove_stop_word (add_stop_word s w) w).map (fun t => t.stop_words) =
      .ok s.stop_words ∧
    (remove_stop_word (add_stop_word s w) w).map (fun t => t.stop_words.card) =
      .ok s.stop_words.card ∧
    (remove_stop_word (add_stop_word s w) w).map (fun t => t.is_stop w) =
      .ok false ∧
    (remove_stop_word (add_stop_word s w) w).map (fun t => t.is_stop x) =
      .ok (s.is_stop x) := by
  have hmem : w ∈ (add_stop_word s w).stop_words := by
    simp [add_stop_word]
  refine ⟨by simp [add_stop_word], ?_, ?_, ?_, ?_, ?_⟩
  · simp [add_stop_word, Finset.card_insert_of_not_mem h1]
  · simp [remove_stop_word, hmem, Except.map, add_stop_word, Finset.erase_insert h1]
  · simp [remove_stop_word, hmem, Except.map, add_stop_word, Finset.erase_insert h1]
  · simp [remove_stop_word, hmem, Except.map, add_stop_word]
  · by_cases hx : x = w
    · subst hx
      simp [remove_stop_word, hmem, Except.map, add_stop_word, h2]
    · simp [remove_stop_word, hmem, Except.map, add_stop_word, hx]

/-- Witness for `stop_word_add_remove_roundtrip`: adding and removing
"btw" on a one-word stop list. -/
theorem stop_word_add_remove_roundtrip_witness :
    ("btw" ∉ (StopWordsState.mk {"the"} (fun y => y == "the")).stop_words ∧
        (StopWordsState.mk {"the"} (fun y => y == "the")).is_stop "btw" = false) ∧
      ((add_stop_word (StopWordsState.mk {"the"} (fun y => y == "the")) "btw").is_stop "btw" = true ∧
        (add_stop_word (StopWordsState.mk {"the"} (fun y => y == "the")) "btw").stop_words.card =
          (StopWordsState.mk {"the"} (fun y => y == "the")).stop_words.card + 1 ∧
        (remove_stop_word (add_stop_word (StopWordsState.mk {"the"} (fun y => y == "the")) "btw") "btw").map
            (fun t => t.stop_words) =
          .ok (StopWordsState.mk {"the"} (fun y => y == "the")).stop_words ∧
        (remove_stop_word (add_stop_word (StopWordsState.mk {"the"} (fun y => y == "the")) "btw") "btw").map
            (fun t => t.stop_words.card) =
          .ok (StopWordsState.mk {"the"} (fun y => y == "the")).stop_words.card ∧
        (remove_stop_word (add_stop_word (StopWordsState.mk {"the"} (fun y => y == "the")) "btw") "btw").map
            (fun t => t.is_stop "btw") =
          .ok false ∧
        (remove_stop_word (add_stop_word (StopWordsState.mk {"the"} (fun y => y == "the")) "btw") "btw").map
            (fun t => t.is_stop "beyond") =
          .ok ((StopWordsState.mk {"the"} (fun y => y == "the")).is_stop "beyond")) :=
  ⟨⟨by decide, by decide⟩,
    stop_word_add_remove_roundtrip (StopWordsState.mk {"the"} (fun y => y == "the"))
      "btw" "beyond" (by decide) (by decide)⟩

theorem filter_key_orderedInsert (c : ℚ) (a : Lexeme × Score) :
    ∀ (l : List (Lexeme × Score)),
      (List.orderedInsert sim_desc a l).filter (fun x => x.2.key == c) =
        if a.2.key == c then a :: l.filter (fun x => x.2.key == c)
        else l.filter (fun x => x.2.key == c) := by
  intro l
  induction l with
  | nil =>
    by_cases hac : (a.2.key == c) = true <;>
      simp [List.orderedInsert, List.filter, hac]
  | cons b l ih =>
    by_cases h : sim_desc a b
    · simp only [List.orderedInsert, if_pos h]
      by_cases hac : (a.2.key == c) = true <;>
        simp [List.filter_cons, hac]
    · have hlt : Score.key a.2 < Score.key b.2 := not_le.mp h
      simp only [List.orderedInsert, if_neg h]
      by_cases hac : (a.2.key == c) = true
      · have hkeq : a.2.key = c := beq_iff_eq.mp hac
        have hbc : (b.2.key == c) = false := by
          rw [beq_eq_false_iff_ne]
          intro hbceq
          rw [← hkeq] at hbceq
          exact absurd hbceq.symm (ne_of_lt hlt)
        rw [List.filter_cons, hbc, ih, if_pos hac, if_pos hac]
        rw [List.filter_cons, hbc]
        simp
      · rw [if_neg hac, List.filter_cons, List.filter_cons]
        by_cases hbc : (b.2.key == c) = true
        · rw [if_pos hbc, if_pos hbc, ih, if_neg hac]
        · rw [if_neg hbc, if_neg hbc, ih, if_neg hac]

theorem filter_key_insertionSort (c : ℚ) :
    ∀ (l : List (Lexeme × Score)),
      (List.insertionSort sim_desc l).filter (fun x => x.2.key == c) =
        l.filter (fun x => x.2.key == c) := by
  intro l
  induction l with
  | nil => rfl
  | cons a l ih =>
    simp only [List.insertionSort]
    rw [filter_key_orderedInsert c a]
    by_cases hac : (a.2.key == c) = true
    · rw [if_pos hac, ih, List.filter_cons, if_pos hac]
    · rw [if_neg hac, ih, List.filter_cons, if_neg hac]

theorem strictMono_mul_abs : StrictMono (fun x : ℝ => x * |x|) := by
  intro a b hab
  rcases le_or_lt 0 a with ha | ha
  · have hb : 0 < b := lt_of_le_of_lt ha hab
    simp only [abs_of_nonneg ha, abs_of_pos hb]
    nlinarith
  · rcases le_or_lt 0 b with hb | hb
    · have h1 : a * |a| < 0 := by
        rw [abs_of_neg ha]; nlinarith
      have h2 : 0 ≤ b * |b| := by
        rw [abs_of_nonneg hb]; positivity
      exact lt_of_lt_of_le h1 h2
    · simp only [abs_of_neg ha, abs_of_neg hb]
      nlinarith

theorem score_key_cast (s : Score) (hs : 0 < s.p) :
    ((Score.key s : ℚ) : ℝ) =
      ((s.d : ℝ) / Real.sqrt ((s.p : ℚ) : ℝ)) *
        |(s.d : ℝ) / Real.sqrt ((s.p : ℚ) : ℝ)| := by
  have hpR : (0 : ℝ) < ((s.p : ℚ) : ℝ) := by exact_mod_cast hs
  have hsqrt : 0 < Real.sqrt ((s.p : ℚ) : ℝ) := Real.sqrt_pos.mpr hpR
  have hss : Real.sqrt ((s.p : ℚ) : ℝ) * Real.sqrt ((s.p : ℚ) : ℝ) =
      ((s.p : ℚ) : ℝ) := Real.mul_self_sqrt (le_of_lt hpR)
  rw [abs_div, abs_of_pos hsqrt, div_mul_div_comm, hss]
  rcases lt_or_le s.d 0 with hd | hd
  · have hdR : (s.d : ℝ) < 0 := by exact_mod_cast hd
    rw [Score.key, if_pos hd, abs_of_neg hdR]
    push_cast
    ring
  · have hdR : (0 : ℝ) ≤ (s.d : ℝ) := by exact_mod_cast hd
    rw [Score.key, if_neg (not_lt.mpr hd), abs_of_nonneg hdR]
    push_cast
    ring

/-- Comparison through `Score.key` is exactly comparison of the real
cosine values `d / √p` whenever both squared denominators are positive:
the surrogate used by `sim_desc` is order-faithful. -/
theorem score_key_le_iff (s t : Score) (hs : 0 < s.p) (ht : 0 < t.p) :
    (Score.key s ≤ Score.key t ↔
      (s.d : ℝ) / Real.sqrt ((s.p : ℚ) : ℝ) ≤
        (t.d : ℝ) / Real.sqrt ((t.p : ℚ) : ℝ)) := by
  constructor
  · intro h
    have hR : ((Score.key s : ℚ) : ℝ) ≤ ((Score.key t : ℚ) : ℝ) := by
      exact_mod_cast h
    rw [score_key_cast s hs, score_key_cast t ht] at hR
    exact strictMono_mul_abs.le_iff_le.mp hR
  · intro h
    have hR := strictMono_mul_abs.le_iff_le.mpr h
    rw [← score_key_cast s hs, ← score_key_cast t ht] at hR
    exact_mod_cast hR

theorem mem_computed_similarities (vocab : List Lexeme) (nv : List ℚ)
    (w : Lexeme) (s : Score) :
    ((w, s) ∈ computed_similarities vocab nv ↔
      (w ∈ vocab ∧ w.has_vector = true ∧ w.is_lower = true ∧ w.is_alpha = true ∧
        s = cosine_similarity nv w.vector)) := by
  simp only [computed_similarities, List.mem_filterMap]
  constructor
  · rintro ⟨a, ha, hfa⟩
    by_cases hc : (a.has_vector && a.is_lower && a.is_alpha) = true
    · rw [if_pos hc, Option.some.injEq, Prod.mk.injEq] at hfa
      obtain ⟨rfl, hs⟩ := hfa
      simp only [Bool.and_eq_true] at hc
      exact ⟨ha, hc.1.1, hc.1.2, hc.2, hs.symm⟩
    · rw [if_neg hc] at hfa
      exact absurd hfa (by simp)
  · rintro ⟨hw, hv, hl, ha, rfl⟩
    exact ⟨w, hw, by simp [hv, hl, ha]⟩

/-- C5 counterexample: on the vocabulary listing "b" before "a", both
with the same vector as the target, the source's ranking keeps the tied
entries in vocabulary order `["b", "a"]` — although "a" precedes "b"
lexically — so ties are not broken by ascending lexical order. -/
theorem analogy_tiebreak_counterexample :
    (computed_similarities1 tie_vocab tie_target).map (fun x => x.1.text) =
      ["b", "a"] ∧
    (computed_similarities tie_vocab tie_target).map (fun x => x.2) =
      [cosine_similarity tie_target [1], cosine_similarity tie_target [1]] ∧
    ("a" : String) < "b" ∧
    (computed_similarities1 tie_vocab tie_target).map (fun x => x.1.text) ≠
      ["a", "b"] := by
  have h1 : computed_similarities1 tie_vocab tie_target =
      [(lexB, cosine_similarity tie_target [1]),
        (lexA, cosine_similarity tie_target [1])] := by
    simp [computed_similarities1, computed_similarities, tie_vocab, lexB, lexA,
      List.insertionSort, List.orderedInsert, sim_desc]
  refine ⟨?_, ?_, ?_, ?_⟩
  · rw [h1]; rfl
  · simp [computed_similarities, tie_vocab, lexB, lexA]
  · rw [String.lt_iff_toList_lt]; decide
  · rw [h1]; decide

/-- C5 (amended): the ranking `computed_similarities1` is exactly the
scored filtered vocabulary entries — membership is characterized by the
has-vector, lowercase-only and alphabetic-only filters with the cosine
score against `king - man + woman` — sorted descending by score
(`sim_desc`), and tied entries keep their vocabulary iteration order:
the sort is stable, each equal-key fragment of the output coincides with
the corresponding fragment of the unsorted scan. -/
theorem analogy_ranking_stable_sorted (vocab : List Lexeme)
    (king man woman : List ℚ) (c : ℚ) (w : Lexeme) (s : Score) :
    (computed_similarities1 vocab (new_vector king man woman)).Perm
      (computed_similarities vocab (new_vector king man woman)) ∧
    List.Sorted sim_desc
      (computed_similarities1 vocab (new_vector king man woman)) ∧
    (computed_similarities1 vocab (new_vector king man woman)).filter
        (fun x => x.2.key == c) =
      (computed_similarities vocab (new_vector king man woman)).filter
        (fun x => x.2.key == c) ∧
    ((w, s) ∈ computed_similarities vocab (new_vector king man woman) ↔
      (w ∈ vocab ∧ w.has_vector = true ∧ w.is_lower = true ∧
        w.is_alpha = true ∧
        s = cosine_similarity (new_vector king man woman) w.vector)) :=
  ⟨List.perm_insertionSort sim_desc _,
    List.sorted_insertionSort sim_desc _,
    filter_key_insertionSort c _,
    mem_computed_similarities vocab _ w s⟩
